import Mathlib

/-!
Shallow embedding of the chess rules engine (model layer of the repository):
`position.py`, `piece.py`, `board.py`, `move_validator.py`, `move_history.py`,
`captured_pieces.py`, `game_state.py`.

Conventions of the embedding:
* Python `Position` objects carry `row`/`col` integers; the constructor raises
  `ValueError` outside `[0,7]`.  Here `Position` is a plain pair of integers and
  the places where Python would raise are modeled explicitly: functions that can
  construct an out-of-range position return `Option` results, with `none`
  standing for the raised exception.
* Python pieces are mutable objects that also record their own board position;
  every board reachable through the modeled entry points keeps a piece's
  recorded position equal to its grid coordinates, so the embedding passes the
  grid coordinates explicitly and a `Piece` is just (color, kind, has_moved).
* `Board.copy()` produces an independent deep clone; in a functional embedding
  copy-then-mutate is simply the computation of a new board value.
* `time.time()` timestamps on move records are not modeled (no claim concerns
  them).
-/

inductive Color where
  | white
  | black
deriving DecidableEq, Repr

/-- Python `'black' if color == 'white' else 'white'`. -/
def Color.opposite : Color → Color
  | .white => .black
  | .black => .white

/-- The six piece kinds, i.e. the `piece_type` characters P/R/N/B/Q/K. -/
inductive Kind where
  | P
  | R
  | N
  | B
  | Q
  | K
deriving DecidableEq, Repr

/-- `Piece` from `piece.py`: color, kind and the `has_moved` flag. -/
structure Piece where
  color : Color
  kind : Kind
  has_moved : Bool
deriving DecidableEq, Repr

/-- `Position` from `position.py` (row 0 = black home rank, col 0 = a-file). -/
structure Position where
  row : Int
  col : Int
deriving DecidableEq, Repr

/-- `Position.is_valid`: `0 <= row < 8 and 0 <= col < 8`. -/
def Position.isValid (p : Position) : Bool :=
  decide (0 ≤ p.row ∧ p.row < 8 ∧ 0 ≤ p.col ∧ p.col < 8)

/-- `Position.to_algebraic`: `chr(ord('a') + col)` followed by `str(8 - row)`. -/
def Position.to_algebraic (p : Position) : String :=
  String.singleton (Char.ofNat (97 + p.col.toNat)) ++ toString (8 - p.row)

/-- `Position.from_algebraic`: parse a two character string; `none` models the
`ValueError` raised on a malformed input. -/
def Position.from_algebraic (s : String) : Option Position :=
  match s.toList with
  | [f0, r0] =>
    let f := f0.toLower
    if 'a' ≤ f ∧ f ≤ 'h' then
      if '1' ≤ r0 ∧ r0 ≤ '8' then
        some ⟨8 - ((r0.toNat : Int) - 48), (f.toNat : Int) - 97⟩
      else none
    else none
  | _ => none

/-- `Board` from `board.py`: the 8x8 `grid` of optional pieces, stored row by
row (row 0 first), each row col by col. -/
def Board := List (List (Option Piece))

instance : DecidableEq Board := by
  unfold Board
  infer_instance

/-- `Board.__init__`: the empty 8x8 grid. -/
def empty_board : Board := List.replicate 8 (List.replicate 8 none)

/-- `Board.get_piece`: `None` for invalid positions, else `grid[row][col]`. -/
def get_piece (b : Board) (p : Position) : Option Piece :=
  if p.isValid then
    match b.get? p.row.toNat with
    | some r => (r.get? p.col.toNat).getD none
    | none => none
  else none

/-- `Board.set_piece`: write `grid[row][col]`.  Python raises `ValueError` on
an invalid position; every call site modeled here passes a valid position, so
the invalid case is an identity. -/
def set_piece (b : Board) (p : Position) (pc : Option Piece) : Board :=
  if p.isValid then
    match b.get? p.row.toNat with
    | some r => b.set p.row.toNat (r.set p.col.toNat pc)
    | none => b
  else b

/-- `Board.move_piece`: `none` models the `ValueError` raised when the start
square is empty; otherwise place the mover (marked moved) on `end`, clear
`start`, and return the piece previously on `end` as the capture. -/
def move_piece (b : Board) (s e : Position) : Option (Board × Option Piece) :=
  match get_piece b s with
  | none => none
  | some piece =>
    let captured := get_piece b e
    let b1 := set_piece b e (some { piece with has_moved := true })
    some (set_piece b1 s none, captured)

/-- `Board.find_king`: first (row-major) square holding a king of the color. -/
def find_king (b : Board) (c : Color) : Option Position :=
  (List.range 8).findSome? fun r =>
    (List.range 8).findSome? fun col =>
      match get_piece b ⟨(r : Int), (col : Int)⟩ with
      | some p => if p.kind = .K ∧ p.color = c then some ⟨(r : Int), (col : Int)⟩ else none
      | none => none

/-- `Board.get_all_pieces`: row-major list of (position, piece) of a color. -/
def get_all_pieces (b : Board) (c : Color) : List (Position × Piece) :=
  (List.range 8).flatMap fun r =>
    (List.range 8).filterMap fun col =>
      match get_piece b ⟨(r : Int), (col : Int)⟩ with
      | some p => if p.color = c then some (⟨(r : Int), (col : Int)⟩, p) else none
      | none => none

/-- Build a board by placing pieces on an empty grid (helper for fixtures and
for `setup_initial_position`). -/
def board_of (l : List (Position × Piece)) : Board :=
  l.foldl (fun b pp => set_piece b pp.1 (some pp.2)) empty_board

/-- `Board.setup_initial_position` applied to a fresh board: the standard
initial placement (all pieces with `has_moved = false`). -/
def initial_board : Board :=
  board_of
    ([(⟨0, 0⟩, ⟨.black, .R, false⟩), (⟨0, 1⟩, ⟨.black, .N, false⟩),
      (⟨0, 2⟩, ⟨.black, .B, false⟩), (⟨0, 3⟩, ⟨.black, .Q, false⟩),
      (⟨0, 4⟩, ⟨.black, .K, false⟩), (⟨0, 5⟩, ⟨.black, .B, false⟩),
      (⟨0, 6⟩, ⟨.black, .N, false⟩), (⟨0, 7⟩, ⟨.black, .R, false⟩),
      (⟨1, 0⟩, ⟨.black, .P, false⟩), (⟨1, 1⟩, ⟨.black, .P, false⟩),
      (⟨1, 2⟩, ⟨.black, .P, false⟩), (⟨1, 3⟩, ⟨.black, .P, false⟩),
      (⟨1, 4⟩, ⟨.black, .P, false⟩), (⟨1, 5⟩, ⟨.black, .P, false⟩),
      (⟨1, 6⟩, ⟨.black, .P, false⟩), (⟨1, 7⟩, ⟨.black, .P, false⟩),
      (⟨6, 0⟩, ⟨.white, .P, false⟩), (⟨6, 1⟩, ⟨.white, .P, false⟩),
      (⟨6, 2⟩, ⟨.white, .P, false⟩), (⟨6, 3⟩, ⟨.white, .P, false⟩),
      (⟨6, 4⟩, ⟨.white, .P, false⟩), (⟨6, 5⟩, ⟨.white, .P, false⟩),
      (⟨6, 6⟩, ⟨.white, .P, false⟩), (⟨6, 7⟩, ⟨.white, .P, false⟩),
      (⟨7, 0⟩, ⟨.white, .R, false⟩), (⟨7, 1⟩, ⟨.white, .N, false⟩),
      (⟨7, 2⟩, ⟨.white, .B, false⟩), (⟨7, 3⟩, ⟨.white, .Q, false⟩),
      (⟨7, 4⟩, ⟨.white, .K, false⟩), (⟨7, 5⟩, ⟨.white, .B, false⟩),
      (⟨7, 6⟩, ⟨.white, .N, false⟩), (⟨7, 7⟩, ⟨.white, .R, false⟩)] :
      List (Position × Piece))

/-! ## Piece movement generation (`piece.py`) -/

/-- Pawn forward direction: `-1 if color == 'white' else 1`. -/
def pawn_dir (c : Color) : Int := if c = .white then -1 else 1

/-- `Pawn.get_possible_moves`: one forward if empty, two forward from the
unmoved rank if both empty, plus the two diagonal captures onto enemy pieces.
Never generates en passant. -/
def pawn_moves (b : Board) (pos : Position) (p : Piece) : List Position :=
  let dir := pawn_dir p.color
  let forward_row := pos.row + dir
  let m1 : List Position :=
    if 0 ≤ forward_row ∧ forward_row < 8 then
      let f1 : Position := ⟨forward_row, pos.col⟩
      if get_piece b f1 = none then
        let m2 : List Position :=
          if !p.has_moved then
            let fr2 := pos.row + 2 * dir
            if 0 ≤ fr2 ∧ fr2 < 8 then
              let f2 : Position := ⟨fr2, pos.col⟩
              if get_piece b f2 = none then [f2] else []
            else []
          else []
        f1 :: m2
      else []
    else []
  let caps : List Position :=
    ([-1, 1] : List Int).filterMap fun co =>
      let cr := pos.row + dir
      let cc := pos.col + co
      if 0 ≤ cr ∧ cr < 8 ∧ 0 ≤ cc ∧ cc < 8 then
        match get_piece b ⟨cr, cc⟩ with
        | some t => if t.color ≠ p.color then some ⟨cr, cc⟩ else none
        | none => none
      else none
  m1 ++ caps

/-- One ray of a sliding piece (`while` loop body of Rook/Bishop/Queen
`get_possible_moves`).  The fuel starts at 8, which strictly bounds the length
of any in-bounds ray, so the fueled recursion computes the same list as the
Python `while` loop. -/
def ray_moves (b : Board) (c : Color) : Nat → Int → Int → Int → Int → List Position
  | 0, _, _, _, _ => []
  | fuel + 1, r, co, dr, dc =>
    if 0 ≤ r ∧ r < 8 ∧ 0 ≤ co ∧ co < 8 then
      match get_piece b ⟨r, co⟩ with
      | none => ⟨r, co⟩ :: ray_moves b c fuel (r + dr) (co + dc) dr dc
      | some t => if t.color ≠ c then [⟨r, co⟩] else []
    else []

/-- Rook/Bishop/Queen `get_possible_moves`: concatenation of the rays in the
direction order of the source. -/
def slide_moves (b : Board) (pos : Position) (c : Color) (dirs : List (Int × Int)) :
    List Position :=
  dirs.flatMap fun d => ray_moves b c 8 (pos.row + d.1) (pos.col + d.2) d.1 d.2

/-- Knight/King fixed-offset moves filtered to board bounds and squares not
occupied by an own piece. -/
def offset_moves (b : Board) (pos : Position) (c : Color) (offs : List (Int × Int)) :
    List Position :=
  offs.filterMap fun o =>
    let r := pos.row + o.1
    let co := pos.col + o.2
    if 0 ≤ r ∧ r < 8 ∧ 0 ≤ co ∧ co < 8 then
      match get_piece b ⟨r, co⟩ with
      | none => some ⟨r, co⟩
      | some t => if t.color ≠ c then some ⟨r, co⟩ else none
    else none

def rook_dirs : List (Int × Int) := [(-1, 0), (1, 0), (0, -1), (0, 1)]

def bishop_dirs : List (Int × Int) := [(1, 1), (1, -1), (-1, 1), (-1, -1)]

def queen_dirs : List (Int × Int) :=
  [(-1, 0), (1, 0), (0, -1), (0, 1), (1, 1), (1, -1), (-1, 1), (-1, -1)]

def knight_offsets : List (Int × Int) :=
  [(2, 1), (2, -1), (-2, 1), (-2, -1), (1, 2), (1, -2), (-1, 2), (-1, -2)]

def king_offsets : List (Int × Int) :=
  [(-1, 0), (1, 0), (0, -1), (0, 1), (1, 1), (1, -1), (-1, 1), (-1, -1)]

/-- `get_possible_moves` with `include_castling=False` semantics: for every
non-king kind this is exactly the piece's `get_possible_moves`, and for the
king it is the eight-offset part without the castling extension. -/
def get_possible_moves_nc (b : Board) (pos : Position) (p : Piece) : List Position :=
  match p.kind with
  | .P => pawn_moves b pos p
  | .R => slide_moves b pos p.color rook_dirs
  | .N => offset_moves b pos p.color knight_offsets
  | .B => slide_moves b pos p.color bishop_dirs
  | .Q => slide_moves b pos p.color queen_dirs
  | .K => offset_moves b pos p.color king_offsets

/-- `MoveValidator.is_under_attack`: some opponent piece's candidate set
(castling disabled for kings) contains the position. -/
def is_under_attack (b : Board) (pos : Position) (defending : Color) : Bool :=
  (get_all_pieces b defending.opposite).any fun pp =>
    decide (pos ∈ get_possible_moves_nc b pp.1 pp.2)

/-- Integer half-open range `[lo, hi)` (Python `range(lo, hi)` over columns). -/
def int_range (lo hi : Int) : List Int :=
  (List.range (hi - lo).toNat).map fun k => lo + (k : Int)

/-- `MoveValidator.can_castle`.  `none` models the `InvalidPosition` exception
raised when a square of the king's two-step path falls outside the board
(Python constructs both path `Position`s before testing attacks). -/
def can_castle (b : Board) (kp rp : Position) : Option Bool :=
  match get_piece b kp, get_piece b rp with
  | some king, some rook =>
    if king.kind ≠ .K ∨ rook.kind ≠ .R then some false
    else if king.color ≠ rook.color then some false
    else if king.has_moved ∨ rook.has_moved then some false
    else if is_under_attack b kp king.color then some false
    else
      let dir : Int := if rp.col > kp.col then 1 else -1
      let between : List Int :=
        if rp.col > kp.col then int_range (kp.col + 1) rp.col
        else int_range (rp.col + 1) kp.col
      if between.any fun co => (get_piece b ⟨kp.row, co⟩).isSome then some false
      else
        let p1 : Position := ⟨kp.row, kp.col + dir⟩
        let p2 : Position := ⟨kp.row, kp.col + 2 * dir⟩
        if ¬p1.isValid ∨ ¬p2.isValid then none
        else if is_under_attack b p1 king.color ∨ is_under_attack b p2 king.color then
          some false
        else some true
  | _, _ => some false

/-- `get_possible_moves` with `include_castling=True` (the default used by
`is_legal_move`, `get_legal_moves` and notation disambiguation).  For a king
that has not moved, the kingside and then the queenside `can_castle` checks run
in source order; `none` propagates their possible `InvalidPosition` raise. -/
def get_possible_moves (b : Board) (pos : Position) (p : Piece) : Option (List Position) :=
  match p.kind with
  | .K =>
    let base := offset_moves b pos p.color king_offsets
    if p.has_moved then some base
    else
      match can_castle b pos ⟨pos.row, 7⟩ with
      | none => none
      | some ks =>
        let base2 := if ks then base ++ [⟨pos.row, pos.col + 2⟩] else base
        match can_castle b pos ⟨pos.row, 0⟩ with
        | none => none
        | some qs => some (if qs then base2 ++ [⟨pos.row, pos.col - 2⟩] else base2)
  | _ => some (get_possible_moves_nc b pos p)

/-! ## MoveValidator (`move_validator.py`) -/

/-- A `last_move` entry: `(start_pos, end_pos, piece)` as stored by
`GameState.make_move`. -/
def LastMove := Position × Position × Piece

instance : DecidableEq LastMove := by
  unfold LastMove
  infer_instance

/-- `MoveValidator.would_leave_in_check`: simulate the raw relocation on a
board copy, locate the mover's king and test attack; a missing king is unsafe
(`true`).  `none` models the `EmptySquare` raise of `move_piece` (unreachable
from `is_legal_move`, which has already found a piece at `start`). -/
def would_leave_in_check (b : Board) (s e : Position) (c : Color) : Option Bool :=
  match move_piece b s e with
  | none => none
  | some (b2, _) =>
    match find_king b2 c with
    | none => some true
    | some kp => some (is_under_attack b2 kp c)

/-- `MoveValidator.would_leave_in_check_en_passant`: as above but first remove
the captured pawn from `(start.row, end.col)`. -/
def would_leave_in_check_en_passant (b : Board) (s e : Position) (c : Color) :
    Option Bool :=
  let b1 := set_piece b ⟨s.row, e.col⟩ none
  match move_piece b1 s e with
  | none => none
  | some (b2, _) =>
    match find_king b2 c with
    | none => some true
    | some kp => some (is_under_attack b2 kp c)

/-- `MoveValidator.is_en_passant_legal`: the sequence of early-return checks of
the source, in order. -/
def is_en_passant_legal (b : Board) (s e : Position) (lm : Option LastMove) : Bool :=
  match lm with
  | none => false
  | some (ls, le, lp) =>
    match get_piece b s with
    | none => false
    | some piece =>
      if piece.kind ≠ .P then false
      else if lp.kind ≠ .P then false
      else if lp.color = piece.color then false
      else
        let correct_rank : Int := if piece.color = .white then 3 else 4
        if s.row ≠ correct_rank then false
        else if (le.row - ls.row).natAbs ≠ 2 then false
        else if le.row ≠ s.row then false
        else if (le.col - s.col).natAbs ≠ 1 then false
        else
          let dir := pawn_dir piece.color
          decide (e.row = s.row + dir ∧ e.col = le.col)

/-- `MoveValidator.is_legal_move`: bounds, piece presence, turn, non-null move
and own-capture gates, then the geometric candidate test with the en-passant
special case for pawns, then the king-safety simulation.  `none` propagates an
`InvalidPosition` raise from a castling check inside `get_possible_moves`. -/
def is_legal_move (b : Board) (s e : Position) (turn : Color) (lm : Option LastMove) :
    Option Bool :=
  if ¬s.isValid ∨ ¬e.isValid then some false
  else
    match get_piece b s with
    | none => some false
    | some piece =>
      if piece.color ≠ turn then some false
      else if s = e then some false
      else if (get_piece b e).any fun t => t.color = piece.color then some false
      else
        match get_possible_moves b s piece with
        | none => none
        | some pm =>
          if piece.kind = .P ∧ e ∉ pm then
            if is_en_passant_legal b s e lm then
              match would_leave_in_check_en_passant b s e turn with
              | none => none
              | some chk => some (!chk)
            else some false
          else if e ∉ pm then some false
          else
            match would_leave_in_check b s e turn with
            | none => none
            | some chk => some (!chk)

/-! ## GameState data (`game_state.py`, `move_record.py`, `captured_pieces.py`) -/

/-- `CapturedPieces`: lists of captured piece kinds keyed by capturing color. -/
structure CapturedPieces where
  white_captured : List Kind
  black_captured : List Kind
deriving DecidableEq, Repr

/-- `CapturedPieces.add_capture`. -/
def add_capture (cp : CapturedPieces) (k : Kind) (c : Color) : CapturedPieces :=
  match c with
  | .white => { cp with white_captured := cp.white_captured ++ [k] }
  | .black => { cp with black_captured := cp.black_captured ++ [k] }

/-- `MoveRecord` (timestamp omitted; `algebraic` is the notation string). -/
structure MoveRecord where
  move_number : Nat
  player : Color
  piece_type : Kind
  startPos : Position
  endPos : Position
  captured_piece : Option Kind
  is_check : Bool
  is_checkmate : Bool
  is_castling : Bool
  is_en_passant : Bool
  algebraic : String
deriving DecidableEq, Repr

/-- `GameState` fields (the `check_status` dict is split into two booleans). -/
structure GameState where
  board : Board
  current_turn : Color
  move_history : List MoveRecord
  captured_pieces : CapturedPieces
  check_status_white : Bool
  check_status_black : Bool
  game_over : Bool
  winner : Option Color
  last_move : Option LastMove
deriving DecidableEq

/-- `GameState.__init__`: fresh standard game. -/
def initial_state : GameState :=
  { board := initial_board
    current_turn := .white
    move_history := []
    captured_pieces := ⟨[], []⟩
    check_status_white := false
    check_status_black := false
    game_over := false
    winner := none
    last_move := none }

/-- `GameState.is_in_check`: king missing means not in check (`False`). -/
def is_in_check (b : Board) (c : Color) : Bool :=
  match find_king b c with
  | none => false
  | some kp => is_under_attack b kp c

/-- The `for end_pos in possible_moves` filter loop of
`GameState.get_legal_moves`, aborting (like the Python loop) if the legality
check raises. -/
def filter_legal (f : Position → Option Bool) : List Position → Option (List Position)
  | [] => some []
  | a :: as =>
    match f a with
    | none => none
    | some keep =>
      match filter_legal f as with
      | none => none
      | some rest => some (if keep then a :: rest else rest)

/-- `GameState.get_legal_moves` (as a function of the board and `last_move`):
empty for an empty square, otherwise the geometric candidates filtered through
`is_legal_move` with the piece's own color as the turn. -/
def get_legal_moves (b : Board) (lm : Option LastMove) (pos : Position) :
    Option (List Position) :=
  match get_piece b pos with
  | none => some []
  | some piece =>
    match get_possible_moves b pos piece with
    | none => none
    | some pm => filter_legal (fun e => is_legal_move b pos e piece.color lm) pm

/-- The `for piece_pos, piece in pieces` loop of `GameState._has_legal_moves`:
stop at the first piece with a nonempty legal move list. -/
def has_legal_aux (b : Board) (lm : Option LastMove) :
    List (Position × Piece) → Option Bool
  | [] => some false
  | pp :: rest =>
    match get_legal_moves b lm pp.1 with
    | none => none
    | some l => if l.length > 0 then some true else has_legal_aux b lm rest

/-- `GameState._has_legal_moves`. -/
def has_legal_moves (b : Board) (lm : Option LastMove) (c : Color) : Option Bool :=
  has_legal_aux b lm (get_all_pieces b c)

/-- `GameState.is_checkmate`: in check and no legal moves. -/
def is_checkmate (b : Board) (lm : Option LastMove) (c : Color) : Option Bool :=
  if ¬is_in_check b c then some false
  else
    match has_legal_moves b lm c with
    | none => none
    | some h => some (!h)

/-- `GameState.is_stalemate`: current turn not in check and no legal moves. -/
def is_stalemate (b : Board) (lm : Option LastMove) (turn : Color) : Option Bool :=
  if is_in_check b turn then some false
  else
    match has_legal_moves b lm turn with
    | none => none
    | some h => some (!h)

/-! ## Algebraic notation (`move_history.py`) -/

/-- `piece_type` letter of a kind. -/
def kind_char : Kind → String
  | .P => "P"
  | .R => "R"
  | .N => "N"
  | .B => "B"
  | .Q => "Q"
  | .K => "K"

/-- `start.to_algebraic()[0]`: the file letter. -/
def file_token (p : Position) : String :=
  String.singleton (Char.ofNat (97 + p.col.toNat))

/-- `start.to_algebraic()[1]`: the first character of the rank part. -/
def rank_token (p : Position) : String :=
  match (toString (8 - p.row)).toList with
  | [] => ""
  | c :: _ => String.singleton c

/-- Row-major scan order of `_get_disambiguation`. -/
def all_squares : List Position :=
  (List.range 8).flatMap fun r =>
    (List.range 8).map fun c => (⟨(r : Int), (c : Int)⟩ : Position)

/-- The collection loop of `MoveHistory._get_disambiguation`: same-kind,
same-color pieces other than the mover whose candidate set contains the
destination.  `none` propagates a castling `InvalidPosition` raise from a
king's `get_possible_moves`. -/
def disambig_candidates (piece : Piece) (s e : Position) (b : Board) :
    List Position → Option (List Position)
  | [] => some []
  | pos :: rest =>
    match get_piece b pos with
    | some other =>
      if other.kind = piece.kind ∧ other.color = piece.color ∧ pos ≠ s then
        match get_possible_moves b pos other with
        | none => none
        | some pm =>
          match disambig_candidates piece s e b rest with
          | none => none
          | some tail => some (if e ∈ pm then pos :: tail else tail)
      else disambig_candidates piece s e b rest
    | none => disambig_candidates piece s e b rest

/-- `MoveHistory._get_disambiguation`. -/
def get_disambiguation (piece : Piece) (s e : Position) (b : Board) : Option String :=
  match disambig_candidates piece s e b all_squares with
  | none => none
  | some cands =>
    if cands.isEmpty then some ""
    else
      let same_file := cands.any fun p => decide (p.col = s.col)
      let same_rank := cands.any fun p => decide (p.row = s.row)
      if ¬same_file then some (file_token s)
      else if ¬same_rank then some (rank_token s)
      else some s.to_algebraic

/-- `MoveHistory.to_algebraic_notation` as called from `add_move` (a board is
always supplied there, so disambiguation always runs for non-pawn movers). -/
def algebraic_move_str (piece : Piece) (s e : Position) (is_capture is_check
    is_checkmate is_castling is_ep : Bool) (b : Board) : Option String :=
  let suffix : String := if is_checkmate then "#" else if is_check then "+" else ""
  if is_castling then
    some ((if e.col > s.col then "O-O" else "O-O-O") ++ suffix)
  else
    let n1 : Option String :=
      if piece.kind ≠ .P then
        match get_disambiguation piece s e b with
        | none => none
        | some d => some (kind_char piece.kind ++ d)
      else if is_capture then some (file_token s)
      else some ""
    match n1 with
    | none => none
    | some n1v =>
      let n2 := n1v ++ (if is_capture then "x" else "")
      let n3 := n2 ++ e.to_algebraic
      some (n3 ++ (if is_ep then " e.p." else "") ++ suffix)

/-! ## `GameState.make_move` -/

/-- Castling detection test of `make_move` (line 189): mover is a king moving
two files. -/
def is_castling_move (piece : Piece) (s e : Position) : Bool :=
  piece.kind = .K ∧ (e.col - s.col).natAbs = 2

/-- Castling rook relocation of `make_move` (lines 189-205): on a castling
move, relocate the rook from column 7 (kingside) or 0 (queenside) next to the
king, when a piece is present there. -/
def castle_rook (b : Board) (piece : Piece) (s e : Position) : Option Board :=
  if is_castling_move piece s e then
    let rs : Position := if e.col > s.col then ⟨s.row, 7⟩ else ⟨s.row, 0⟩
    let re : Position := if e.col > s.col then ⟨s.row, s.col + 1⟩ else ⟨s.row, s.col - 1⟩
    match get_piece b rs with
    | some _ => (move_piece b rs re).map fun r => r.1
    | none => some b
  else some b

/-- En-passant detection of `make_move` (lines 208-217): a pawn changing file
onto an empty square; returns the captured pawn's square and occupant. -/
def en_passant_info (b : Board) (piece : Piece) (s e : Position) :
    Option (Position × Option Piece) :=
  if piece.kind = .P ∧ s.col ≠ e.col ∧ get_piece b e = none then
    let cpp : Position := ⟨s.row, e.col⟩
    some (cpp, get_piece b cpp)
  else none

/-- Lines 254-265 of `GameState.make_move`: the checkmate/stalemate evaluation
on the post-move board.  Returns the `is_checkmate` flag together with the new
`(game_over, winner)` pair, which stays `(go, win)` when the game continues. -/
def terminal_eval (b4 : Board) (lm' : Option LastMove) (turn' : Color) (mover : Color)
    (go : Bool) (win : Option Color) : Option (Bool × (Bool × Option Color)) :=
  match is_checkmate b4 lm' turn' with
  | none => none
  | some cm =>
    if cm then some (cm, (true, some mover))
    else
      match is_stalemate b4 lm' turn' with
      | none => none
      | some st => some (cm, (if st then ((true : Bool), (none : Option Color)) else (go, win)))

/-- The board after the en-passant removal of `make_move` (line 217): clear
the captured pawn's square when the move was detected as en passant. -/
def ep_board (b1 : Board) (epInfo : Option (Position × Option Piece)) : Board :=
  match epInfo with
  | some (cpp, _) => set_piece b1 cpp none
  | none => b1

/-- The capture attribution of `make_move` (lines 220-224): on en passant the
captured piece is read from the pawn's actual square, otherwise it is whatever
`move_piece` returned. -/
def ep_captured (epInfo : Option (Position × Option Piece)) (cap0 : Option Piece) :
    Option Piece :=
  match epInfo with
  | some (_, some capp) => some capp
  | _ => cap0

/-- Lines 227-228 of `make_move`: record a capture against the mover's color. -/
def capture_update (cp : CapturedPieces) (captured : Option Piece) (mover : Color) :
    CapturedPieces :=
  match captured with
  | some cpc => add_capture cp cpc.kind mover
  | none => cp

/-- Lines 231-241 of `make_move`: replace a pawn reaching its promotion row by
a queen marked as moved. -/
def promo_board (b3 : Board) (piece : Piece) (e : Position) : Board :=
  if piece.kind = .P ∧ e.row = (if piece.color = .white then 0 else 7) then
    set_piece b3 e (some ⟨piece.color, .Q, true⟩)
  else b3

/-- Line 255 of `make_move`: `check_status[opponent_color]`. -/
def check_flag (turn' : Color) (cw cb : Bool) : Bool :=
  if turn' = .white then cw else cb

/-- Lines 186-282 of `GameState.make_move`: everything after the three
rejection gates.  Always returns `some (true, _)` or `none` (a raise). -/
def make_move_exec (gs : GameState) (s e : Position) (piece : Piece) :
    Option (Bool × GameState) :=
  match castle_rook gs.board piece s e with
  | none => none
  | some b1 =>
  match move_piece (ep_board b1 (en_passant_info b1 piece s e)) s e with
  | none => none
  | some (b3, cap0) =>
  let captured := ep_captured (en_passant_info b1 piece s e) cap0
  let b4 := promo_board b3 piece e
  let lm' : Option LastMove := some (s, e, { piece with has_moved := true })
  let turn' := gs.current_turn.opposite
  let cw := is_in_check b4 .white
  let cb := is_in_check b4 .black
  match terminal_eval b4 lm' turn' piece.color gs.game_over gs.winner with
  | none => none
  | some (cm, gow) =>
  match algebraic_move_str piece s e captured.isSome (check_flag turn' cw cb) cm
      (is_castling_move piece s e) (en_passant_info b1 piece s e).isSome b4 with
  | none => none
  | some nota =>
  let mrec : MoveRecord :=
    { move_number := gs.move_history.length / 2 + 1
      player := piece.color
      piece_type := piece.kind
      startPos := s
      endPos := e
      captured_piece := captured.map fun cpc => cpc.kind
      is_check := check_flag turn' cw cb
      is_checkmate := cm
      is_castling := is_castling_move piece s e
      is_en_passant := (en_passant_info b1 piece s e).isSome
      algebraic := nota }
  some (true,
    { board := b4
      current_turn := turn'
      move_history := gs.move_history ++ [mrec]
      captured_pieces := capture_update gs.captured_pieces captured piece.color
      check_status_white := cw
      check_status_black := cb
      game_over := gow.1
      winner := gow.2
      last_move := lm' })

/-- `GameState.make_move`: the three rejection gates (piece present, correct
turn, `is_legal_move`), then the execution phase.  `none` models an exception
escaping the call. -/
def make_move (gs : GameState) (s e : Position) : Option (Bool × GameState) :=
  match get_piece gs.board s with
  | none => some (false, gs)
  | some piece =>
    if piece.color ≠ gs.current_turn then some (false, gs)
    else
      match is_legal_move gs.board s e piece.color gs.last_move with
      | none => none
      | some false => some (false, gs)
      | some true => make_move_exec gs s e piece

/-! ## Concrete fixtures -/

/-- Board with a white pawn on e5 and a black pawn that has just played
d7-d5 (both kings on their home squares): the canonical en-passant position. -/
def ep_fixture_board : Board :=
  board_of [(⟨3, 4⟩, ⟨.white, .P, true⟩), (⟨3, 3⟩, ⟨.black, .P, true⟩),
            (⟨7, 4⟩, ⟨.white, .K, false⟩), (⟨0, 4⟩, ⟨.black, .K, false⟩)]

/-- The `last_move` recording black's d7-d5 double advance. -/
def ep_last : Option LastMove := some (⟨1, 3⟩, ⟨3, 3⟩, ⟨.black, .P, true⟩)

/-- Board with an unmoved white king on f1 and an unmoved white rook on h1
(g1 empty, black king far away): `can_castle` accepts the kingside castle and
the king's castling destination h1 holds the own rook. -/
def own_rook_board : Board :=
  board_of [(⟨7, 5⟩, ⟨.white, .K, false⟩), (⟨7, 7⟩, ⟨.white, .R, false⟩),
            (⟨0, 0⟩, ⟨.black, .K, false⟩)]

/-- Board with an unmoved white king on g1 and an unmoved white rook on h1:
the castling king-path reaches column 8, which raises `InvalidPosition`. -/
def raise_board : Board :=
  board_of [(⟨7, 6⟩, ⟨.white, .K, false⟩), (⟨7, 7⟩, ⟨.white, .R, false⟩),
            (⟨0, 0⟩, ⟨.black, .K, false⟩)]

/-- The state after white's e2-e4 from the initial position. -/
def after_e4 : GameState :=
  ((make_move initial_state ⟨6, 4⟩ ⟨4, 4⟩).getD (false, initial_state)).2

/-! ## Helper lemmas -/

/-- A successful `make_move_exec` always reports success (`True`). -/
theorem make_move_exec_fst {gs : GameState} {s e : Position} {piece : Piece}
    {r : Bool × GameState} (h : make_move_exec gs s e piece = some r) : r.1 = true := by
  unfold make_move_exec at h
  dsimp only at h
  repeat' split at h
  all_goals try exact Option.noConfusion h
  all_goals rw [Option.some.injEq] at h; rw [← h]

/-- A successful `make_move_exec` ran `terminal_eval` on the final board, last
move and switched turn, and copied its verdict into the returned state. -/
theorem make_move_exec_shape {gs : GameState} {s e : Position} {piece : Piece}
    {r : Bool × GameState} (h : make_move_exec gs s e piece = some r) :
    ∃ cm gow, terminal_eval r.2.board r.2.last_move r.2.current_turn piece.color
        gs.game_over gs.winner = some (cm, gow) ∧
      r.2.game_over = gow.1 ∧ r.2.winner = gow.2 := by
  unfold make_move_exec at h
  dsimp only at h
  repeat' split at h
  all_goals try exact Option.noConfusion h
  all_goals rw [Option.some.injEq] at h; rw [← h]; exact ⟨_, _, by assumption, rfl, rfl⟩

/-- What `terminal_eval` decides, phrased through `is_in_check` and
`has_legal_moves`. -/
theorem terminal_eval_spec {b : Board} {lm : Option LastMove} {tn : Color} {mv : Color}
    {g : Bool} {w : Option Color} {cm : Bool} {gow : Bool × Option Color}
    (h : terminal_eval b lm tn mv g w = some (cm, gow)) :
    (is_in_check b tn = true ∧ has_legal_moves b lm tn = some false →
      gow = (true, some mv)) ∧
    (is_in_check b tn = false ∧ has_legal_moves b lm tn = some false →
      gow = (true, none)) ∧
    (has_legal_moves b lm tn = some true → gow = (g, w)) := by
  unfold terminal_eval is_checkmate is_stalemate at h
  refine ⟨fun hc => ?_, fun hc => ?_, fun hc => ?_⟩
  · rw [hc.1, hc.2] at h
    simp at h
    exact h.2.symm
  · rw [hc.1, hc.2] at h
    simp at h
    exact h.2.symm
  · rw [hc] at h
    simp at h
    exact h.2.symm

/-- Soundness of the filter loop: everything kept was accepted. -/
theorem filter_legal_mem {f : Position → Option Bool} {xs l : List Position} {d : Position}
    (h : filter_legal f xs = some l) (hd : d ∈ l) : d ∈ xs ∧ f d = some true := by
  induction xs generalizing l with
  | nil =>
    unfold filter_legal at h
    rw [Option.some.injEq] at h
    rw [← h] at hd
    exact absurd hd (List.not_mem_nil d)
  | cons a as ih =>
    unfold filter_legal at h
    split at h
    · exact Option.noConfusion h
    · rename_i keep hk
      split at h
      · exact Option.noConfusion h
      · rename_i rest hrest
        rw [Option.some.injEq] at h
        rw [← h] at hd
        by_cases hka : keep = true
        · rw [if_pos hka] at hd
          rcases List.mem_cons.mp hd with hda | hdr
          · subst hda
            exact ⟨List.mem_cons_self _ _, hka ▸ hk⟩
          · have := ih hrest hdr
            exact ⟨List.mem_cons_of_mem a this.1, this.2⟩
        · rw [if_neg hka] at hd
          have := ih hrest hd
          exact ⟨List.mem_cons_of_mem a this.1, this.2⟩

/-- Membership in `get_legal_moves` implies acceptance by `is_legal_move` (and
membership in the geometric candidate list). -/
theorem get_legal_moves_sound {b : Board} {lm : Option LastMove} {p : Position}
    {piece : Piece} {pm l : List Position} {d : Position}
    (hp : get_piece b p = some piece)
    (hpm : get_possible_moves b p piece = some pm)
    (hl : get_legal_moves b lm p = some l) (hd : d ∈ l) :
    d ∈ pm ∧ is_legal_move b p d piece.color lm = some true := by
  unfold get_legal_moves at hl
  rw [hp] at hl
  dsimp only at hl
  rw [hpm] at hl
  dsimp only at hl
  exact filter_legal_mem hl hd

/-- When `get_legal_moves` returns a list, the candidate generation for the
piece at that square did not raise. -/
theorem get_legal_moves_candidates {b : Board} {lm : Option LastMove} {p : Position}
    {piece : Piece} {l : List Position} (hp : get_piece b p = some piece)
    (hl : get_legal_moves b lm p = some l) :
    ∃ pm, get_possible_moves b p piece = some pm := by
  unfold get_legal_moves at hl
  rw [hp] at hl
  dsimp only at hl
  cases hgp : get_possible_moves b p piece with
  | none =>
    rw [hgp] at hl
    exact Option.noConfusion hl
  | some pm => exact ⟨pm, rfl⟩

/-- Acceptance of a geometric candidate by `is_legal_move` passed the
king-safety simulation. -/
theorem is_legal_move_safe {b : Board} {s e : Position} {piece : Piece}
    {pm : List Position} {lm : Option LastMove} (hp : get_piece b s = some piece)
    (hpm : get_possible_moves b s piece = some pm) (hmem : e ∈ pm)
    (h : is_legal_move b s e piece.color lm = some true) :
    would_leave_in_check b s e piece.color = some false := by
  unfold is_legal_move at h
  split at h
  · simp at h
  · rw [hp] at h
    dsimp only at h
    rw [if_neg (by simp)] at h
    split at h
    · simp at h
    · split at h
      · simp at h
      · rw [hpm] at h
        dsimp only at h
        rw [if_neg (by simp [hmem])] at h
        rw [if_neg (by simp [hmem])] at h
        split at h
        · exact Option.noConfusion h
        · rename_i chk hchk
          rw [Option.some.injEq] at h
          cases chk with
          | false => exact hchk
          | true => simp at h

/-- A piece found on the board sits on a valid position. -/
theorem get_piece_valid {b : Board} {p : Position} {x : Piece}
    (h : get_piece b p = some x) : p.isValid = true := by
  unfold get_piece at h
  split at h
  · assumption
  · exact Option.noConfusion h

/-- Offset moves stay on the board and never land on an own piece. -/
theorem offset_moves_mem {b : Board} {pos : Position} {c : Color}
    {offs : List (Int × Int)} {d : Position} (h : d ∈ offset_moves b pos c offs) :
    d.isValid = true ∧ ((get_piece b d).all fun t => decide (t.color ≠ c)) = true := by
  unfold offset_moves at h
  rw [List.mem_filterMap] at h
  obtain ⟨o, _, ho⟩ := h
  dsimp only at ho
  split_ifs at ho with hb
  split at ho
  · rw [Option.some.injEq] at ho
    subst ho
    constructor
    · simp only [Position.isValid, decide_eq_true_iff]
      omega
    · rename_i hempty
      rw [hempty]
      rfl
  · split_ifs at ho with hcol
    rw [Option.some.injEq] at ho
    subst ho
    constructor
    · simp only [Position.isValid, decide_eq_true_iff]
      omega
    · rename_i t hsome
      rw [hsome]
      simpa using hcol

/-- Ray moves stay on the board and never land on an own piece. -/
theorem ray_moves_mem {b : Board} {c : Color} {fuel : Nat} {r co dr dc : Int}
    {d : Position} (h : d ∈ ray_moves b c fuel r co dr dc) :
    d.isValid = true ∧ ((get_piece b d).all fun t => decide (t.color ≠ c)) = true := by
  induction fuel generalizing r co with
  | zero => exact absurd h (List.not_mem_nil d)
  | succ n ih =>
    unfold ray_moves at h
    split_ifs at h with hb
    · split at h
      · rcases List.mem_cons.mp h with hda | hdr
        · subst hda
          refine ⟨by simp only [Position.isValid, decide_eq_true_iff]; omega, ?_⟩
          rename_i hempty
          rw [hempty]
          rfl
        · exact ih hdr
      · split_ifs at h with hcol
        · rcases List.mem_cons.mp h with hda | hdr
          · subst hda
            refine ⟨by simp only [Position.isValid, decide_eq_true_iff]; omega, ?_⟩
            rename_i t hsome
            rw [hsome]
            simpa using hcol
          · exact absurd hdr (List.not_mem_nil d)
        · exact absurd h (List.not_mem_nil d)
    · exact absurd h (List.not_mem_nil d)

/-- Slide moves stay on the board and never land on an own piece. -/
theorem slide_moves_mem {b : Board} {pos : Position} {c : Color}
    {dirs : List (Int × Int)} {d : Position} (h : d ∈ slide_moves b pos c dirs) :
    d.isValid = true ∧ ((get_piece b d).all fun t => decide (t.color ≠ c)) = true := by
  unfold slide_moves at h
  rw [List.mem_flatMap] at h
  obtain ⟨dir, _, hd⟩ := h
  exact ray_moves_mem hd

/-- Pawn moves stay on the board and never land on an own piece (for a pawn
whose own position is on the board, as at every call site). -/
theorem pawn_moves_mem {b : Board} {pos : Position} {p : Piece} {d : Position}
    (hpos : pos.isValid = true) (h : d ∈ pawn_moves b pos p) :
    d.isValid = true ∧ ((get_piece b d).all fun t => decide (t.color ≠ p.color)) = true := by
  simp only [Position.isValid, decide_eq_true_iff] at hpos
  unfold pawn_moves at h
  rw [List.mem_append] at h
  rcases h with h | h
  · dsimp only at h
    split_ifs at h with hb1 hb2 hm hb3 hb4
    · simp only [List.mem_cons, List.mem_singleton, List.not_mem_nil, or_false] at h
      rcases h with hda | hda
      · subst hda
        refine ⟨by simp only [Position.isValid, decide_eq_true_iff]; omega, ?_⟩
        rw [hb2]
        rfl
      · subst hda
        refine ⟨by simp only [Position.isValid, decide_eq_true_iff]; omega, ?_⟩
        rw [hb4]
        rfl
    all_goals simp only [List.mem_cons, List.not_mem_nil, or_false] at h
    all_goals subst h
    all_goals refine ⟨by simp only [Position.isValid, decide_eq_true_iff]; omega, ?_⟩
    all_goals rw [hb2]
    all_goals rfl
  · rw [List.mem_filterMap] at h
    obtain ⟨o, ho1, ho⟩ := h
    dsimp only at ho
    split_ifs at ho with hb
    split at ho
    · rename_i t hsome
      split_ifs at ho with hcol
      rw [Option.some.injEq] at ho
      subst ho
      refine ⟨by simp only [Position.isValid, decide_eq_true_iff]; omega, ?_⟩
      rw [hsome]
      simpa using hcol
    · exact Option.noConfusion ho

/-- All non-castling candidate moves stay on the board and never land on an
own piece. -/
theorem get_possible_moves_nc_mem {b : Board} {pos : Position} {p : Piece}
    {d : Position} (hpos : pos.isValid = true) (h : d ∈ get_possible_moves_nc b pos p) :
    d.isValid = true ∧ ((get_piece b d).all fun t => decide (t.color ≠ p.color)) = true := by
  unfold get_possible_moves_nc at h
  split at h
  · exact pawn_moves_mem hpos h
  · exact slide_moves_mem h
  · exact offset_moves_mem h
  · exact slide_moves_mem h
  · exact slide_moves_mem h
  · exact offset_moves_mem h

/-- A kingside castle accepted by `can_castle` has its king destination
(column +2) on the board. -/
theorem can_castle_true_ks {b : Board} {pos : Position}
    (h : can_castle b pos ⟨pos.row, 7⟩ = some true) :
    Position.isValid ⟨pos.row, pos.col + 2⟩ = true := by
  unfold can_castle at h
  split at h
  · rename_i king rook hk hr
    have hv := get_piece_valid hk
    simp only [Position.isValid, decide_eq_true_iff] at hv
    dsimp only at h
    by_cases hdir : (7 : Int) > pos.col
    · simp only [if_pos hdir] at h
      split_ifs at h with c1 c2 c3 c4 c5 c6 c7
      all_goals try exact Bool.noConfusion (Option.some.inj h)
      simp only [Position.isValid, decide_eq_true_iff, not_or, not_not] at c6 ⊢
      omega
    · exfalso
      have hcol : pos.col = 7 := by omega
      have hpe : pos = ⟨pos.row, (7 : Int)⟩ := by
        obtain ⟨pr, pc⟩ := pos
        simp only at hcol
        rw [hcol]
      rw [← hpe, hk, Option.some.injEq] at hr
      simp only [if_neg hdir] at h
      split_ifs at h with c1 c2 c3 c4 c5 c6 c7
      all_goals try exact Bool.noConfusion (Option.some.inj h)
      all_goals rw [not_or, not_not, not_not] at c1
      all_goals rw [hr] at c1
      all_goals rw [c1.1] at c1
      all_goals exact absurd c1.2 (by simp)
  · exact absurd h (by simp)

/-- A queenside castle accepted by `can_castle` has its king destination
(column -2) on the board. -/
theorem can_castle_true_qs {b : Board} {pos : Position}
    (h : can_castle b pos ⟨pos.row, 0⟩ = some true) :
    Position.isValid ⟨pos.row, pos.col - 2⟩ = true := by
  unfold can_castle at h
  split at h
  · rename_i king rook hk hr
    have hv := get_piece_valid hk
    simp only [Position.isValid, decide_eq_true_iff] at hv
    dsimp only at h
    have hdir : ¬((0 : Int) > pos.col) := by omega
    simp only [if_neg hdir] at h
    split_ifs at h with c1 c2 c3 c4 c5 c6 c7
    all_goals try exact Bool.noConfusion (Option.some.inj h)
    simp only [Position.isValid, decide_eq_true_iff, not_or, not_not] at c6 ⊢
    omega
  · exact absurd h (by simp)

/-- For a king column in [2,5] both castling path squares are on the board, so
`can_castle` cannot raise. -/
theorem can_castle_ne_none {b : Board} {kp rp : Position}
    (h2 : 2 ≤ kp.col) (h5 : kp.col ≤ 5) : can_castle b kp rp ≠ none := by
  unfold can_castle
  split
  · rename_i king rook hk hr
    have hv := get_piece_valid hk
    simp only [Position.isValid, decide_eq_true_iff] at hv
    dsimp only
    by_cases hdir : rp.col > kp.col
    · simp only [if_pos hdir]
      split_ifs with c1 c2 c3 c4 c5 c6 c7
      all_goals try exact fun hx => Option.noConfusion hx
      exfalso
      simp only [Position.isValid, decide_eq_true_iff, not_not] at c6
      rcases c6 with c6 | c6 <;> omega
    · simp only [if_neg hdir]
      split_ifs with c1 c2 c3 c4 c5 c6 c7
      all_goals try exact fun hx => Option.noConfusion hx
      exfalso
      simp only [Position.isValid, decide_eq_true_iff, not_not] at c6
      rcases c6 with c6 | c6 <;> omega
  · simp


/-- `terminal_eval` raises independently of the carried-over `game_over` and
`winner` values: if it raises for one pair it raises for every pair. -/
theorem terminal_eval_go_win_none {b : Board} {lm : Option LastMove} {tn mv : Color}
    {g : Bool} {w : Option Color} {g2 : Bool} {w2 : Option Color}
    (h : terminal_eval b lm tn mv g w = none) :
    terminal_eval b lm tn mv g2 w2 = none := by
  unfold terminal_eval at h ⊢
  cases hic : is_checkmate b lm tn with
  | none => rfl
  | some cm =>
    rw [hic] at h
    dsimp only at h ⊢
    by_cases hc : cm = true
    · rw [if_pos hc] at h
      exact Option.noConfusion h
    · rw [if_neg hc] at h ⊢
      cases hst : is_stalemate b lm tn with
      | none => rfl
      | some st =>
        rw [hst] at h
        exact Option.noConfusion h

/-- `terminal_eval` returns the same checkmate flag for every carried-over
`game_over`/`winner` pair (only the continue verdict can differ). -/
theorem terminal_eval_go_win_some {b : Board} {lm : Option LastMove} {tn mv : Color}
    {g : Bool} {w : Option Color} {g2 : Bool} {w2 : Option Color}
    {cm : Bool} {gow : Bool × Option Color}
    (h : terminal_eval b lm tn mv g w = some (cm, gow)) :
    ∃ gow2, terminal_eval b lm tn mv g2 w2 = some (cm, gow2) := by
  unfold terminal_eval at h ⊢
  cases hic : is_checkmate b lm tn with
  | none =>
    rw [hic] at h
    exact Option.noConfusion h
  | some cmv =>
    rw [hic] at h
    dsimp only at h ⊢
    by_cases hc : cmv = true
    · rw [if_pos hc] at h ⊢
      rw [Option.some.injEq, Prod.mk.injEq] at h
      exact ⟨(true, some mv), by rw [h.1]⟩
    · rw [if_neg hc] at h ⊢
      cases hst : is_stalemate b lm tn with
      | none =>
        rw [hst] at h
        exact Option.noConfusion h
      | some st =>
        rw [hst] at h
        dsimp only at h
        rw [Option.some.injEq, Prod.mk.injEq] at h
        exact ⟨if st then ((true : Bool), (none : Option Color)) else (g2, w2), by rw [h.1]⟩

/-- The success/raise outcome of `make_move_exec` does not depend on the input
state's `game_over` flag (which the execution phase only carries over). -/
theorem make_move_exec_fst_go {gs : GameState} {g : Bool} {s e : Position}
    {piece : Piece} :
    (make_move_exec { gs with game_over := g } s e piece).map Prod.fst
      = (make_move_exec gs s e piece).map Prod.fst := by
  unfold make_move_exec
  dsimp only
  cases hcr : castle_rook gs.board piece s e with
  | none => rfl
  | some b1 =>
    dsimp only
    cases hmv : move_piece (ep_board b1 (en_passant_info b1 piece s e)) s e with
    | none => rfl
    | some p3 =>
      obtain ⟨b3, cap0⟩ := p3
      dsimp only
      cases hte : terminal_eval (promo_board b3 piece e)
          (some (s, e, { piece with has_moved := true })) gs.current_turn.opposite
          piece.color g gs.winner with
      | none =>
        rw [terminal_eval_go_win_none hte]
      | some cg =>
        obtain ⟨cm, gow⟩ := cg
        obtain ⟨gow2, hte2⟩ := terminal_eval_go_win_some hte
        rw [hte2]
        dsimp only
        cases hns : algebraic_move_str piece s e
            (ep_captured (en_passant_info b1 piece s e) cap0).isSome
            (check_flag gs.current_turn.opposite
              (is_in_check (promo_board b3 piece e) .white)
              (is_in_check (promo_board b3 piece e) .black)) cm
            (is_castling_move piece s e) (en_passant_info b1 piece s e).isSome
            (promo_board b3 piece e) with
        | none => rfl
        | some nota => rfl

/-- Whether `make_move` accepts, rejects or raises is independent of the
state's `game_over` flag: neither the three gates nor the execution phase
reads it. -/
theorem make_move_fst_go {gs : GameState} {g : Bool} {s e : Position} :
    (make_move { gs with game_over := g } s e).map Prod.fst
      = (make_move gs s e).map Prod.fst := by
  unfold make_move
  dsimp only
  cases hgp : get_piece gs.board s with
  | none => rfl
  | some piece =>
    dsimp only
    by_cases hne : piece.color ≠ gs.current_turn
    · rw [if_pos hne, if_pos hne]
      rfl
    · rw [if_neg hne, if_neg hne]
      cases hleg : is_legal_move gs.board s e piece.color gs.last_move with
      | none => rfl
      | some legal =>
        cases legal with
        | false => rfl
        | true => exact make_move_exec_fst_go

/-! ## Claims -/

set_option maxHeartbeats 2000000

/-- C1: if `make_move(start, end)` returns false, then board, current_turn,
move_history, captured_pieces, both check-status flags, game_over, winner and
last_move are all identical by value before and after the call: a failed
`make_move` performs no partial mutation. -/
theorem make_move_failed_state_unchanged (gs : GameState) (s e : Position)
    (s2 : GameState) (h : make_move gs s e = some (false, s2)) :
    s2.board = gs.board ∧ s2.current_turn = gs.current_turn ∧
    s2.move_history = gs.move_history ∧ s2.captured_pieces = gs.captured_pieces ∧
    s2.check_status_white = gs.check_status_white ∧
    s2.check_status_black = gs.check_status_black ∧
    s2.game_over = gs.game_over ∧ s2.winner = gs.winner ∧
    s2.last_move = gs.last_move := by
  have hgs : s2 = gs := by
    unfold make_move at h
    split at h
    · rw [Option.some.injEq, Prod.mk.injEq] at h
      exact h.2.symm
    · split at h
      · rw [Option.some.injEq, Prod.mk.injEq] at h
        exact h.2.symm
      · split at h
        · exact Option.noConfusion h
        · rw [Option.some.injEq, Prod.mk.injEq] at h
          exact h.2.symm
        · have := make_move_exec_fst h
          simp at this
  subst hgs
  exact ⟨rfl, rfl, rfl, rfl, rfl, rfl, rfl, rfl, rfl⟩

/-- C1 witness: rejecting the null move e2-e2 from the initial position leaves
the state unchanged. -/
theorem make_move_failed_state_unchanged_witness :
    initial_state.board = initial_state.board ∧
    initial_state.current_turn = initial_state.current_turn ∧
    initial_state.move_history = initial_state.move_history ∧
    initial_state.captured_pieces = initial_state.captured_pieces ∧
    initial_state.check_status_white = initial_state.check_status_white ∧
    initial_state.check_status_black = initial_state.check_status_black ∧
    initial_state.game_over = initial_state.game_over ∧
    initial_state.winner = initial_state.winner ∧
    initial_state.last_move = initial_state.last_move :=
  make_move_failed_state_unchanged initial_state ⟨6, 4⟩ ⟨6, 4⟩ initial_state (by decide)

/-- C2 counterexample: in the initial position with the `game_over` flag set
true, `make_move` still accepts e2-e4 and returns true, refuting the claim
that every move from a `game_over` state is rejected. -/
theorem make_move_ignores_game_over_flag :
    (make_move { initial_state with game_over := true } ⟨6, 4⟩ ⟨4, 4⟩).map Prod.fst
      = some true := by decide

/-- C2 (amended): the `game_over` flag never causes rejection and is never
consulted: a successful `make_move` passed the three gates (a piece at start,
a piece of the current turn's color, `is_legal_move` acceptance), each a
function only of the board, current turn and last move, and the same call
still succeeds after setting `game_over` to any value. -/
theorem make_move_success_passes_gates (gs : GameState) (s e : Position) (g : Bool)
    (h : (make_move gs s e).map Prod.fst = some true) :
    (((get_piece gs.board s).any fun p => decide (p.color = gs.current_turn)) = true ∧
      is_legal_move gs.board s e gs.current_turn gs.last_move = some true) ∧
    (make_move { gs with game_over := g } s e).map Prod.fst = some true := by
  refine ⟨?_, by rw [make_move_fst_go]; exact h⟩
  unfold make_move at h
  split at h
  · simp at h
  · rename_i piece hgp
    split at h
    · simp at h
    · rename_i hcol
      rw [not_not] at hcol
      split at h
      · simp at h
      · simp at h
      · rename_i hleg
        rw [hcol] at hleg
        rw [hgp]
        exact ⟨by simp [hcol], hleg⟩

/-- C2 witness: e2-e4 from the initial position passes the gates, and still
succeeds with the `game_over` flag forced to true. -/
theorem make_move_success_passes_gates_witness :
    (((get_piece initial_state.board ⟨6, 4⟩).any fun p =>
        decide (p.color = initial_state.current_turn)) = true ∧
      is_legal_move initial_state.board ⟨6, 4⟩ ⟨4, 4⟩ initial_state.current_turn
        initial_state.last_move = some true) ∧
    (make_move { initial_state with game_over := true } ⟨6, 4⟩ ⟨4, 4⟩).map Prod.fst
      = some true :=
  make_move_success_passes_gates initial_state ⟨6, 4⟩ ⟨4, 4⟩ true (by decide)

/-- C3: every destination returned by `get_legal_moves` survives the
king-safety simulation: relocating the piece on a board copy leaves the moving
color's king not under attack (`would_leave_in_check` is exactly that
simulation, failing closed when the king is missing). -/
theorem get_legal_moves_keeps_king_safe {b : Board} {lm : Option LastMove}
    {p : Position} {piece : Piece} {l : List Position} {d : Position}
    (hp : get_piece b p = some piece)
    (hl : get_legal_moves b lm p = some l) (hd : d ∈ l) :
    would_leave_in_check b p d piece.color = some false := by
  obtain ⟨pm, hpm⟩ := get_legal_moves_candidates hp hl
  have hs := get_legal_moves_sound hp hpm hl hd
  exact is_legal_move_safe hp hpm hs.1 hs.2

/-- C3 witness: e2-e3 is listed for the initial position and its simulation
leaves the white king safe. -/
theorem get_legal_moves_keeps_king_safe_witness :
    would_leave_in_check initial_board ⟨6, 4⟩ ⟨5, 4⟩ Color.white = some false :=
  @get_legal_moves_keeps_king_safe initial_board none ⟨6, 4⟩ ⟨.white, .P, false⟩
    [⟨5, 4⟩, ⟨4, 4⟩] ⟨5, 4⟩ (by decide) (by decide) (by decide)

/-- C4: after a successful `make_move`, if the new current turn is in check
with no surviving legal move the game ends with the mover as winner; if it is
not in check with no surviving legal move the game ends drawn (winner none);
and if it still has a legal move, `game_over` and `winner` are unchanged. -/
theorem make_move_checkmate_stalemate_eval (gs : GameState) (s e : Position)
    (s2 : GameState) (h : make_move gs s e = some (true, s2)) :
    (is_in_check s2.board s2.current_turn = true ∧
        has_legal_moves s2.board s2.last_move s2.current_turn = some false →
      s2.game_over = true ∧ s2.winner = some gs.current_turn) ∧
    (is_in_check s2.board s2.current_turn = false ∧
        has_legal_moves s2.board s2.last_move s2.current_turn = some false →
      s2.game_over = true ∧ s2.winner = none) ∧
    (has_legal_moves s2.board s2.last_move s2.current_turn = some true →
      s2.game_over = gs.game_over ∧ s2.winner = gs.winner) := by
  unfold make_move at h
  split at h
  · simp at h
  · rename_i piece hgp
    split at h
    · simp at h
    · rename_i hcol
      rw [not_not] at hcol
      split at h
      · exact Option.noConfusion h
      · simp at h
      · obtain ⟨cm, gow, hte, hgo, hwin⟩ := make_move_exec_shape h
        obtain ⟨h1, h2, h3⟩ := terminal_eval_spec hte
        rw [hcol] at h1
        refine ⟨fun hc => ?_, fun hc => ?_, fun hc => ?_⟩
        · rw [hgo, hwin, h1 hc]
          exact ⟨rfl, rfl⟩
        · rw [hgo, hwin, h2 hc]
          exact ⟨rfl, rfl⟩
        · rw [hgo, hwin, h3 hc]
          exact ⟨rfl, rfl⟩

/-- C4 witness: instantiated at white's e2-e4 from the initial position. -/
theorem make_move_checkmate_stalemate_eval_witness :
    (is_in_check after_e4.board after_e4.current_turn = true ∧
        has_legal_moves after_e4.board after_e4.last_move after_e4.current_turn
          = some false →
      after_e4.game_over = true ∧ after_e4.winner = some initial_state.current_turn) ∧
    (is_in_check after_e4.board after_e4.current_turn = false ∧
        has_legal_moves after_e4.board after_e4.last_move after_e4.current_turn
          = some false →
      after_e4.game_over = true ∧ after_e4.winner = none) ∧
    (has_legal_moves after_e4.board after_e4.last_move after_e4.current_turn
        = some true →
      after_e4.game_over = initial_state.game_over ∧
        after_e4.winner = initial_state.winner) :=
  make_move_checkmate_stalemate_eval initial_state ⟨6, 4⟩ ⟨4, 4⟩ after_e4 (by decide)

/-- C5: `is_en_passant_legal` accepts only when the supplied `last_move`
records an opposite-color pawn that advanced exactly two ranks and landed on
the mover's rank exactly one file away, with the destination the square
diagonally behind that pawn in the mover's forward direction (so with any
other `last_move` the same capture is rejected). -/
theorem en_passant_requires_qualifying_last_move (b : Board) (s e ls le : Position)
    (lp pc : Piece) (hpc : get_piece b s = some pc)
    (h : is_en_passant_legal b s e (some (ls, le, lp)) = true) :
    pc.kind = .P ∧ lp.kind = .P ∧ lp.color ≠ pc.color ∧
    (le.row - ls.row).natAbs = 2 ∧ le.row = s.row ∧ (le.col - s.col).natAbs = 1 ∧
    e.row = s.row + pawn_dir pc.color ∧ e.col = le.col := by
  unfold is_en_passant_legal at h
  rw [hpc] at h
  dsimp only at h
  split_ifs at h
  all_goals rw [decide_eq_true_iff] at h
  all_goals exact ⟨by tauto, by tauto, by tauto, by omega, by omega, by omega, h.1, h.2⟩

/-- C5 witness: the canonical en-passant fixture satisfies every condition. -/
theorem en_passant_requires_qualifying_last_move_witness :
    (⟨.white, .P, true⟩ : Piece).kind = .P ∧ (⟨.black, .P, true⟩ : Piece).kind = .P ∧
    (⟨.black, .P, true⟩ : Piece).color ≠ (⟨.white, .P, true⟩ : Piece).color ∧
    (((3 : Int) - 1).natAbs = 2) ∧ ((3 : Int) = 3) ∧ (((3 : Int) - 4).natAbs = 1) ∧
    ((2 : Int) = 3 + pawn_dir (⟨.white, .P, true⟩ : Piece).color ∧ (3 : Int) = 3) := by
  have := en_passant_requires_qualifying_last_move ep_fixture_board ⟨3, 4⟩ ⟨2, 3⟩
    ⟨1, 3⟩ ⟨3, 3⟩ ⟨.black, .P, true⟩ ⟨.white, .P, true⟩ (by decide) (by decide)
  exact ⟨this.1, this.2.1, this.2.2.1, this.2.2.2.1, this.2.2.2.2.1,
    this.2.2.2.2.2.1, this.2.2.2.2.2.2⟩

/-- C6 counterexample: in the en-passant fixture, `is_legal_move` accepts the
capture e5xd6 e.p., yet `get_legal_moves` for the pawn returns only the
forward push, so the accepted move is absent from the list and the claimed
equivalence fails. -/
theorem en_passant_missing_from_get_legal_moves :
    is_legal_move ep_fixture_board ⟨3, 4⟩ ⟨2, 3⟩ .white ep_last = some true ∧
    get_legal_moves ep_fixture_board ep_last ⟨3, 4⟩ = some [⟨2, 4⟩] ∧
    (⟨2, 3⟩ : Position) ∉ ([⟨2, 4⟩] : List Position) := by decide

/-- C6 (amended): `get_legal_moves` is only a subset of the moves accepted by
`is_legal_move`: every listed destination is accepted (with the piece's color
as the turn), but en-passant captures accepted by `is_legal_move` do not
appear, because the list is filtered from the geometric candidates, which
never contain the en-passant destination. -/
theorem get_legal_moves_subset_of_is_legal_move {b : Board} {lm : Option LastMove}
    {p : Position} {piece : Piece} {l : List Position} {d : Position}
    (hp : get_piece b p = some piece)
    (hl : get_legal_moves b lm p = some l) (hd : d ∈ l) :
    is_legal_move b p d piece.color lm = some true := by
  obtain ⟨pm, hpm⟩ := get_legal_moves_candidates hp hl
  exact (get_legal_moves_sound hp hpm hl hd).2

/-- C6 witness: e2-e4 is listed for the initial position and accepted. -/
theorem get_legal_moves_subset_of_is_legal_move_witness :
    is_legal_move initial_board ⟨6, 4⟩ ⟨4, 4⟩ (⟨.white, .P, false⟩ : Piece).color none
      = some true :=
  @get_legal_moves_subset_of_is_legal_move initial_board none ⟨6, 4⟩
    ⟨.white, .P, false⟩ [⟨5, 4⟩, ⟨4, 4⟩] ⟨4, 4⟩ (by decide) (by decide) (by decide)

/-- C7 counterexample: for an unmoved white king on f1 with an unmoved rook on
h1, `get_possible_moves` includes the castling destination h1, which is
occupied by the same-color rook, refuting the never-own-square claim. -/
theorem castling_destination_on_own_rook :
    get_possible_moves own_rook_board ⟨7, 5⟩ ⟨.white, .K, false⟩ =
      some [⟨6, 5⟩, ⟨7, 4⟩, ⟨7, 6⟩, ⟨6, 6⟩, ⟨6, 4⟩, ⟨7, 7⟩] ∧
    get_piece own_rook_board ⟨7, 7⟩ = some ⟨.white, .R, false⟩ ∧
    (⟨7, 7⟩ : Position) ∈
      ([⟨6, 5⟩, ⟨7, 4⟩, ⟨7, 6⟩, ⟨6, 6⟩, ⟨6, 4⟩, ⟨7, 7⟩] : List Position) := by decide

/-- C7 (amended): every candidate returned by `get_possible_moves` (for a
piece on a board square) lies within the board, and every candidate other
than a castling destination never lands on a same-color piece; an unmoved
king's castling destination can land on its own rook. -/
theorem possible_moves_in_bounds_no_own_capture {b : Board} {pos : Position}
    {p : Piece} {pm : List Position} {d : Position} (hpos : pos.isValid = true)
    (h1 : get_possible_moves b pos p = some pm) (h2 : d ∈ pm) :
    d.isValid = true ∧
      (d ∉ get_possible_moves_nc b pos p ∨
        ((get_piece b d).all fun t => decide (t.color ≠ p.color)) = true) := by
  by_cases hnc : d ∈ get_possible_moves_nc b pos p
  · have := get_possible_moves_nc_mem hpos hnc
    exact ⟨this.1, Or.inr this.2⟩
  · refine ⟨?_, Or.inl hnc⟩
    unfold get_possible_moves at h1
    split at h1
    · rename_i hkk
      have hbase : get_possible_moves_nc b pos p
          = offset_moves b pos p.color king_offsets := by
        unfold get_possible_moves_nc
        rw [hkk]
      split_ifs at h1 with hmv
      · rw [Option.some.injEq] at h1
        rw [← h1, ← hbase] at h2
        exact absurd h2 hnc
      · split at h1
        · exact Option.noConfusion h1
        · rename_i ks hks
          dsimp only at h1
          by_cases hk2 : ks = true
          all_goals try rw [if_pos hk2] at h1
          all_goals try rw [if_neg hk2] at h1
          all_goals split at h1
          all_goals try exact Option.noConfusion h1
          all_goals rename_i qs hqs
          all_goals by_cases hq : qs = true
          all_goals try rw [if_pos hq, Option.some.injEq] at h1
          all_goals try rw [if_neg hq, Option.some.injEq] at h1
          all_goals rw [← h1] at h2
          all_goals rw [← hbase] at h2
          all_goals try rcases List.mem_append.mp h2 with h2 | h2
          all_goals try rcases List.mem_append.mp h2 with h2 | h2
          all_goals first
            | exact absurd h2 hnc
            | (rw [List.mem_singleton.mp h2]; exact can_castle_true_ks (hk2 ▸ hks))
            | (rw [List.mem_singleton.mp h2]; exact can_castle_true_qs (hq ▸ hqs))
    · rw [Option.some.injEq] at h1
      rw [← h1] at h2
      exact absurd h2 hnc

/-- C7 witness: e2-e3 for the initial pawn is on the board and (being a
non-castling candidate) lands on no same-color piece. -/
theorem possible_moves_in_bounds_no_own_capture_witness :
    Position.isValid ⟨5, 4⟩ = true ∧
      ((⟨5, 4⟩ : Position) ∉
          get_possible_moves_nc initial_board ⟨6, 4⟩ ⟨.white, .P, false⟩ ∨
        ((get_piece initial_board ⟨5, 4⟩).all fun t =>
          decide (t.color ≠ (⟨.white, .P, false⟩ : Piece).color)) = true) :=
  @possible_moves_in_bounds_no_own_capture initial_board ⟨6, 4⟩ ⟨.white, .P, false⟩
    [⟨5, 4⟩, ⟨4, 4⟩] ⟨5, 4⟩ (by decide) (by decide) (by decide)

/-- C8 counterexample: for an unmoved white king on g1 with an unmoved rook on
h1, the kingside castling check constructs the square at column 8 and raises
`InvalidPosition` (modeled as `none`), so `can_castle` and the king's
`get_possible_moves` do not terminate normally. -/
theorem castling_path_raises_off_column_six :
    can_castle raise_board ⟨7, 6⟩ ⟨7, 7⟩ = none ∧
    get_possible_moves raise_board ⟨7, 6⟩ ⟨.white, .K, false⟩ = none := by decide

/-- C8 (amended): for a king on columns 2 through 5 (in particular the
standard column 4) the castling king-path stays on the board and move
generation never raises; the raise in the counterexample needs an unmoved
king on column 6 (or 1). -/
theorem king_move_generation_total_on_central_columns (b : Board) (pos : Position)
    (p : Piece) (h2 : 2 ≤ pos.col) (h5 : pos.col ≤ 5) :
    get_possible_moves b pos p ≠ none := by
  unfold get_possible_moves
  split
  · split_ifs with hmv
    · exact fun hx => Option.noConfusion hx
    · cases hks : can_castle b pos ⟨pos.row, 7⟩ with
      | none => exact absurd hks (can_castle_ne_none h2 h5)
      | some ks =>
        dsimp only
        cases hqs : can_castle b pos ⟨pos.row, 0⟩ with
        | none => exact absurd hqs (can_castle_ne_none h2 h5)
        | some qs => exact fun hx => Option.noConfusion hx
  · exact fun hx => Option.noConfusion hx

/-- C8 witness: the initial white king on e1 generates without raising. -/
theorem king_move_generation_total_on_central_columns_witness :
    get_possible_moves initial_board ⟨7, 4⟩ ⟨.white, .K, false⟩ ≠ none :=
  king_move_generation_total_on_central_columns initial_board ⟨7, 4⟩
    ⟨.white, .K, false⟩ (by decide) (by decide)

/-- C9: from the standard initial position, e2-e4 succeeds, the turn passes to
black, and the single appended record's algebraic string is "e4". -/
theorem scenario_a_initial_e4 :
    (make_move initial_state ⟨6, 4⟩ ⟨4, 4⟩).map
      (fun r => (r.1, r.2.current_turn, r.2.move_history.map fun m => m.algebraic))
    = some (true, Color.black, ["e4"]) := by decide

/-- C10: algebraic round trip: for every valid position `p`,
`from_algebraic (to_algebraic p)` returns `p`. -/
theorem position_algebraic_roundtrip (p : Position) (h : p.isValid = true) :
    Position.from_algebraic p.to_algebraic = some p := by
  obtain ⟨r, c⟩ := p
  simp only [Position.isValid, decide_eq_true_iff] at h
  obtain ⟨h1, h2, h3, h4⟩ := h
  interval_cases r <;> interval_cases c <;> decide

/-- C10 witness: the round trip at e4. -/
theorem position_algebraic_roundtrip_witness :
    Position.from_algebraic (Position.to_algebraic ⟨4, 4⟩) = some ⟨4, 4⟩ :=
  position_algebraic_roundtrip ⟨4, 4⟩ (by decide)
